import Mathlib

/-!
Verification development for the options-flow-forecast backend
(flow-normalization pipeline and feature/forecast engine).

The Python source is shallowly embedded:
* Python `float` values are modelled as exact rationals (`ℚ`); the scorer's
  transcendental arithmetic (`math.tanh`, `math.exp`) is modelled over `ℝ`.
* `None` is modelled as `Option.none`.
* A raw CSV row (after `pd.read_csv` and the column reconciliation of
  `_normalize_columns`) is modelled as a record of optional cell strings,
  one per canonical field; `none` means the column was unmapped.  A missing
  cell inside a mapped column surfaces in pandas as the string "nan", which
  `_to_float` rejects, exactly as in the source.
* Python's `sorted(key=..., reverse=True)` is a stable descending sort; it is
  modelled by Mathlib's `List.insertionSort` with the decidable relation
  "left premium is at least right premium", which is the canonical stable
  sort realising the same specification.
-/

/-- Enum for `option_type` in `schemas.FlowRow` (`Literal["C", "P"]`). -/
inductive OptionType where
  | C
  | P
deriving DecidableEq, Repr

/-- Enum for `side` in `schemas.FlowRow` (`Literal["ASK", "BID", "MID", "UNKNOWN"]`). -/
inductive Side where
  | ASK
  | BID
  | MID
  | UNKNOWN
deriving DecidableEq, Repr

/-- `schemas.FlowRow`: one normalized options-flow observation. -/
structure FlowRow where
  symbol : String
  underlying : Option String
  expiry : Option String
  strike : ℚ
  option_type : OptionType
  side : Option Side
  price : Option ℚ
  size : Option ℚ
  premium : Option ℚ
  open_interest : Option ℚ
  iv : Option ℚ
  delta : Option ℚ
  timestamp : Option String
deriving DecidableEq, Repr

/-- `schemas.FlowTable`: ordered rows plus optional provider tag. -/
structure FlowTable where
  rows : List FlowRow
  provider : Option String
deriving DecidableEq, Repr

/-- `schemas.EngineeredFeatures`.  The `top_strikes_by_premium` list of
`{"strike": k, "premium": v}` dicts is modelled as a list of (strike, premium)
pairs. -/
structure EngineeredFeatures where
  net_call_premium : ℚ
  net_put_premium : ℚ
  call_put_ratio : ℚ
  aggressiveness : ℚ
  top_strikes_by_premium : List (ℚ × ℚ)
  concentration_hhi : ℚ
  delta_notional : Option ℚ
  skew_proxy : Option ℚ
deriving DecidableEq, Repr

/-- `schemas.KeyLevel`. -/
structure KeyLevel where
  strike : ℚ
  reason : String
  side : Option String := none
deriving DecidableEq, Repr

/- ------------------------------------------------------------------
Parser: `services/parser.py`
------------------------------------------------------------------ -/

/-- One raw tabular row after column reconciliation: for each canonical
field, the cell text under the mapped column, or `none` when the column was
unmapped by `_normalize_columns`. -/
structure RawRow where
  symbol : Option String := none
  underlying : Option String := none
  expiry : Option String := none
  strike : Option String := none
  option_type : Option String := none
  side : Option String := none
  price : Option String := none
  size : Option String := none
  premium : Option String := none
  open_interest : Option String := none
  iv : Option String := none
  delta : Option String := none
  timestamp : Option String := none
deriving DecidableEq, Repr

/-- Python `str.lower()` (ASCII case folding, the only case the source's
candidate sets exercise). -/
def strLower (s : String) : String :=
  ⟨s.data.map Char.toLower⟩

/-- Whitespace recognised by Python `str.strip()`. -/
def isSpaceChar (c : Char) : Bool :=
  c == ' ' || c == '\t' || c == '\n' || c == '\r'

/-- Python `str.strip()`. -/
def strStrip (s : String) : String :=
  ⟨((s.data.dropWhile isSpaceChar).reverse.dropWhile isSpaceChar).reverse⟩

/-- Digits-only numeral to `Nat`; `none` on the empty list or any non-digit. -/
def digitsToNat (cs : List Char) : Option Nat :=
  if cs.isEmpty then none
  else cs.foldl (fun acc c =>
    match acc with
    | none => none
    | some n => if c.isDigit then some (n * 10 + (c.toNat - 48)) else none) (some 0)

/-- Leading sign of a numeric literal: returns (isNegative, remainder). -/
def parseSign : List Char → Bool × List Char
  | '-' :: t => (true, t)
  | '+' :: t => (false, t)
  | cs => (false, cs)

/-- Unsigned mantissa `digits [. digits]` (either side of the dot may be
empty, but not both), as an exact rational. -/
def parseMantissa (cs : List Char) : Option ℚ :=
  let ip := cs.takeWhile (fun c => !(c == '.'))
  let rest := cs.dropWhile (fun c => !(c == '.'))
  match rest with
  | [] => (digitsToNat ip).map (fun n => (n : ℚ))
  | _ :: fp =>
    if ip.isEmpty && fp.isEmpty then none
    else
      match (if ip.isEmpty then some 0 else digitsToNat ip),
            (if fp.isEmpty then some 0 else digitsToNat fp) with
      | some i, some f => some ((i : ℚ) + (f : ℚ) / (10 : ℚ) ^ fp.length)
      | _, _ => none

/-- Model of Python's `float(s)` on the already-cleaned string: optional
sign, decimal mantissa, optional `e`/`E` exponent with optional sign.
(The exotic literals `inf`/`nan`/underscored digits are out of scope: the
caller has already filtered `nan`, and no spec sentence depends on them.) -/
def parseFloat (cs0 : List Char) : Option ℚ :=
  let cs1 := cs0.map Char.toLower
  let sgn := parseSign cs1
  let mant := sgn.2.takeWhile (fun c => !(c == 'e'))
  let erest := sgn.2.dropWhile (fun c => !(c == 'e'))
  let mantVal := parseMantissa mant
  let expVal : Option Int :=
    match erest with
    | [] => some 0
    | _ :: ecs =>
      let esgn := parseSign ecs
      (digitsToNat esgn.2).map (fun n => if esgn.1 then -(n : Int) else (n : Int))
  match mantVal, expVal with
  | some m, some e =>
      let v := if 0 ≤ e then m * (10 : ℚ) ^ e.toNat else m / (10 : ℚ) ^ (-e).toNat
      some (if sgn.1 then -v else v)
  | _, _ => none

/-- `parser._to_float`: trim, reject ""/"nan"/"none", strip `,`/`$`/`%`,
then parse as a float; `none` on failure. -/
def _to_float (val : Option String) : Option ℚ :=
  match val with
  | none => none
  | some v =>
    let s := strStrip v
    if s = "" || strLower s = "nan" || strLower s = "none" then none
    else parseFloat (s.toList.filter (fun c => !(c == ',' || c == '$' || c == '%')))

/-- Substring containment on character lists (Python's `in` on strings). -/
def containsSub (needle : List Char) : List Char → Bool
  | [] => needle.isEmpty
  | c :: t => needle.isPrefixOf (c :: t) || containsSub needle t

/-- `parser._normalize_side`: case-insensitive substring match, first rule
wins; `None` maps to UNKNOWN. -/
def _normalize_side (val : Option String) : Side :=
  match val with
  | none => Side.UNKNOWN
  | some v =>
    let s := (strLower v).toList
    if containsSub ("ask".toList) s || containsSub ("offer".toList) s then Side.ASK
    else if containsSub ("bid".toList) s then Side.BID
    else if containsSub ("mid".toList) s || containsSub ("between".toList) s then Side.MID
    else Side.UNKNOWN

/-- `parser._normalize_option_type`: trim + lower-case exact match;
anything unrecognised is `none` (which triggers the row drop). -/
def _normalize_option_type (val : Option String) : Option OptionType :=
  match val with
  | none => none
  | some v =>
    let s := strLower (strStrip v)
    if s = "c" || s = "call" || s = "calls" then some OptionType.C
    else if s = "p" || s = "put" || s = "puts" then some OptionType.P
    else none

/-- Python string truthiness on an optional string: `None` and `""` are falsy. -/
def truthyStr : Option String → Bool
  | none => false
  | some s => !(s = "")

/-- Python `a or b` on optional strings. -/
def pyOr (a b : Option String) : Option String :=
  if truthyStr a then a else b

/-- Body of the per-row loop of `parser.parse_csv_bytes`: normalize every
field, derive `premium` from `price * size * 100` when absent, and return
`none` (Python `continue`) when `strike` or `option_type` failed to
normalize. -/
def buildRow (r : RawRow) : Option FlowRow :=
  let symbol := r.symbol.map strStrip
  let underlying := r.underlying.map strStrip
  let expiry := r.expiry.map strStrip
  let strike := _to_float r.strike
  let opt_type := _normalize_option_type r.option_type
  let side := _normalize_side r.side
  let price := _to_float r.price
  let size := _to_float r.size
  let premium0 := _to_float r.premium
  let open_interest := _to_float r.open_interest
  let iv := _to_float r.iv
  let delta := _to_float r.delta
  let timestamp := r.timestamp.map strStrip
  let premium := match premium0, price, size with
    | none, some p, some sz => some (p * sz * 100)
    | pr, _, _ => pr
  match strike, opt_type with
  | some st, some ot =>
    some { symbol := (pyOr symbol (pyOr underlying (some ""))).getD ""
           underlying := pyOr underlying symbol
           expiry := expiry
           strike := st
           option_type := ot
           side := some side
           price := price
           size := size
           premium := premium
           open_interest := open_interest
           iv := iv
           delta := delta
           timestamp := timestamp }
  | _, _ => none

/-- `parser.parse_csv_bytes` after CSV decoding and column reconciliation:
build each row, silently skipping malformed ones. -/
def parse_csv_bytes (rs : List RawRow) (provider : Option String) : FlowTable :=
  { rows := rs.filterMap buildRow, provider := provider }

/- ------------------------------------------------------------------
Feature engine: `services/features.py`
------------------------------------------------------------------ -/

/-- Python `row.premium or 0.0`. -/
def premOrZero (r : FlowRow) : ℚ :=
  r.premium.getD 0

/-- `features._premium_signed`. -/
def _premium_signed (row : FlowRow) : ℚ :=
  let premium := premOrZero row
  let side := row.side.getD Side.UNKNOWN
  match side with
  | Side.ASK => premium
  | Side.BID => -premium
  | _ => 0

/-- Descending-by-premium comparison used by
`sorted(by_strike.items(), key=lambda kv: kv[1], reverse=True)`. -/
def descPrem (a b : ℚ × ℚ) : Prop :=
  b.2 ≤ a.2

instance : DecidableRel descPrem :=
  fun a b => inferInstanceAs (Decidable (b.2 ≤ a.2))

instance : IsTotal (ℚ × ℚ) descPrem :=
  ⟨fun a b => le_total b.2 a.2⟩

instance : IsTrans (ℚ × ℚ) descPrem :=
  ⟨fun _ _ _ h1 h2 => le_trans h2 h1⟩

/-- One `d[k] = d.get(k, 0.0) + v` update on an insertion-ordered
association list (Python dict semantics). -/
def upsert (l : List (ℚ × ℚ)) (k : ℚ) (v : ℚ) : List (ℚ × ℚ) :=
  match l with
  | [] => [(k, v)]
  | (k₁, v₁) :: t => if k₁ = k then (k₁, v₁ + v) :: t else (k₁, v₁) :: upsert t k v

/-- The `by_strike` dict of `features.compute_features`: unsigned premium
grouped by strike, keys in strike-encounter order. -/
def by_strike (flow : FlowTable) : List (ℚ × ℚ) :=
  flow.rows.foldl (fun acc r => upsert acc r.strike (premOrZero r)) []

/-- The `total_premium` accumulator of `features.compute_features`. -/
def total_premium (flow : FlowTable) : ℚ :=
  (flow.rows.map premOrZero).sum

/-- Sum of unsigned premium over call rows (`total_call_prem`). -/
def total_call_prem (flow : FlowTable) : ℚ :=
  (((flow.rows.filter (fun r => r.option_type == OptionType.C)).map premOrZero)).sum

/-- Sum of unsigned premium over put rows (`total_put_prem`). -/
def total_put_prem (flow : FlowTable) : ℚ :=
  (((flow.rows.filter (fun r => r.option_type == OptionType.P)).map premOrZero)).sum

/-- `features.compute_features`. -/
def compute_features (flow : FlowTable) : EngineeredFeatures :=
  let rows := flow.rows
  let call_rows := rows.filter (fun r => r.option_type == OptionType.C)
  let put_rows := rows.filter (fun r => r.option_type == OptionType.P)
  let net_call := (call_rows.map _premium_signed).sum
  let net_put := (put_rows.map _premium_signed).sum
  let tot_call := (call_rows.map premOrZero).sum
  let tot_put := (put_rows.map premOrZero).sum
  let call_put_ratio := if tot_put ≠ 0 then tot_call / tot_put else 0
  let ask_prem := ((rows.filter (fun r => r.side == some Side.ASK)).map premOrZero).sum
  let bid_prem := ((rows.filter (fun r => r.side == some Side.BID)).map premOrZero).sum
  let aggressiveness := (ask_prem - bid_prem) / max (ask_prem + bid_prem) (1 / 1000000)
  let bs := by_strike flow
  let total := total_premium flow
  let top_strikes := (bs.insertionSort descPrem).take 8
  let concentration_hhi :=
    if 0 < total then ((bs.map (fun kv => (kv.2 / total) * (kv.2 / total)))).sum else 0
  let delta_rows := rows.filter (fun r => r.delta.isSome && r.premium.isSome)
  let has_delta := !delta_rows.isEmpty
  let delta_notional := (delta_rows.map (fun r => r.delta.getD 0 * premOrZero r)).sum
  let iv_calls := rows.filterMap (fun r =>
    match r.iv with
    | some x => if r.option_type == OptionType.C then some x else none
    | none => none)
  let iv_puts := rows.filterMap (fun r =>
    match r.iv with
    | some x => if r.option_type == OptionType.C then none else some x
    | none => none)
  let skew_proxy :=
    if !iv_calls.isEmpty && !iv_puts.isEmpty then
      some (iv_puts.sum / (iv_puts.length : ℚ) - iv_calls.sum / (iv_calls.length : ℚ))
    else none
  { net_call_premium := net_call
    net_put_premium := net_put
    call_put_ratio := call_put_ratio
    aggressiveness := aggressiveness
    top_strikes_by_premium := top_strikes
    concentration_hhi := concentration_hhi
    delta_notional := if has_delta then some delta_notional else none
    skew_proxy := skew_proxy }

/- ------------------------------------------------------------------
Scorer: `services/model.py`
------------------------------------------------------------------ -/

/-- Probability output of the scenario scorer (`{"bull": ..., "bear": ...,
"neutral": ...}`). -/
structure Probs where
  bull : ℝ
  bear : ℝ
  neutral : ℝ

/-- A persisted trained classifier, opaque to the core: maps the 5-feature
vector to a 3-class probability row in class order [bear, neutral, bull]. -/
structure TrainedModel where
  predictRow : ℚ × ℚ × ℚ × ℚ × ℚ → ℝ × ℝ × ℝ

/-- `model.load_model`: `joblib.load` wrapped in `try/except`; any load
failure (missing or corrupt blob) yields `None`.  The load outcome is the
argument: `none` models every failing load. -/
def load_model (outcome : Option TrainedModel) : Option TrainedModel :=
  outcome

/-- `model.heuristic_forecast`. -/
noncomputable def heuristic_forecast (f : EngineeredFeatures) : Probs :=
  let net_call : ℝ := (f.net_call_premium : ℝ)
  let net_put : ℝ := (f.net_put_premium : ℝ)
  let aggr : ℝ := (f.aggressiveness : ℝ)
  let score := Real.tanh (net_call / 1000000) * 0.8 - Real.tanh (net_put / 1000000) * 0.8
    + aggr * 0.5
  let bull := 1 / (1 + Real.exp (-score))
  let bear := 1 - bull
  let neutral : ℝ := 0.15
  let total := bull + bear + neutral
  { bull := bull / total, bear := bear / total, neutral := neutral / total }

/-- `model.predict_proba`: attempt the model load; on failure fall back to
the heuristic, otherwise read the class probabilities in order
[bear, neutral, bull]. -/
noncomputable def predict_proba (outcome : Option TrainedModel) (f : EngineeredFeatures) :
    Probs :=
  match load_model outcome with
  | none => heuristic_forecast f
  | some m =>
    let proba := m.predictRow
      (f.net_call_premium, f.net_put_premium, f.call_put_ratio, f.aggressiveness,
        f.concentration_hhi)
    { bear := proba.1, neutral := proba.2.1, bull := proba.2.2 }

/- ------------------------------------------------------------------
Assembler: `services/analyze.py`
------------------------------------------------------------------ -/

/-- Scenario record of `schemas.Forecast`. -/
structure Scenario where
  name : String
  probability : ℝ
  description : String

/-- `schemas.Forecast`. -/
structure Forecast where
  scenarios : List Scenario

/-- The `levels` dict of `analyze.build_key_levels`: its own unsigned
premium-by-strike aggregation, independent of `compute_features`. -/
def levels_map (flow : FlowTable) : List (ℚ × ℚ) :=
  flow.rows.foldl (fun acc r => upsert acc r.strike (premOrZero r)) []

/-- The `top` list of `analyze.build_key_levels`: top 6 strikes by
aggregated premium, descending (stable). -/
def key_level_pairs (flow : FlowTable) : List (ℚ × ℚ) :=
  ((levels_map flow).insertionSort descPrem).take 6

/-- `analyze.build_key_levels`.  `fmt` abstracts the Python number
formatting `f"{prem:,.0f}"`. -/
def build_key_levels (fmt : ℚ → String) (flow : FlowTable) : List KeyLevel :=
  (key_level_pairs flow).map (fun kv =>
    { strike := kv.1
      reason := "High premium concentration (~" ++ fmt kv.2 ++ ")" })

/-- `analyze.build_rationale`.  `fmt0`/`fmt2` abstract the Python number
formats `{:,.0f}` and `{:.2f}`. -/
def build_rationale (fmt0 fmt2 : ℚ → String) (features : EngineeredFeatures) : String :=
  let parts := [
    "Net call premium: " ++ fmt0 features.net_call_premium,
    "Net put premium: " ++ fmt0 features.net_put_premium,
    "Call/Put ratio: " ++ fmt2 features.call_put_ratio,
    "Aggressiveness (ask vs bid): " ++ fmt2 features.aggressiveness]
  let parts := match features.skew_proxy with
    | some sp => parts ++ [("Skew proxy: " ++ fmt2 sp)]
    | none => parts
  String.intercalate (" | ") parts

/-- `analyze.build_forecast`. -/
noncomputable def build_forecast (outcome : Option TrainedModel)
    (features : EngineeredFeatures) : Forecast :=
  let proba := predict_proba outcome features
  { scenarios := [
      { name := "bull", probability := proba.bull
        description := "Upside continuation if flows are confirmed" },
      { name := "bear", probability := proba.bear
        description := "Downside scenario if puts dominate" },
      { name := "neutral", probability := proba.neutral
        description := "Range/mean-reversion if flow is mixed" }] }

/-- `analyze.analyze_flow`: features, forecast, key levels, rationale. -/
noncomputable def analyze_flow (fmt0 fmt2 fmtKL : ℚ → String)
    (outcome : Option TrainedModel) (flow : FlowTable) :
    EngineeredFeatures × Forecast × List KeyLevel × String :=
  let features := compute_features flow
  let forecast := build_forecast outcome features
  let key_levels := build_key_levels fmtKL flow
  let rationale := build_rationale fmt0 fmt2 features
  (features, forecast, key_levels, rationale)

/- ------------------------------------------------------------------
Spec-side definitions (transcribed from the specification's wording, for
comparison against the source-derived definitions above)
------------------------------------------------------------------ -/

/-- The spec's `sigmoid`: logistic function. -/
noncomputable def sigmoidSpec (x : ℝ) : ℝ :=
  1 / (1 + Real.exp (-x))

/-- The spec's scoring formula:
`tanh(net_call_premium / 1e6) * 0.8 - tanh(net_put_premium / 1e6) * 0.8 +
aggressiveness * 0.5`. -/
noncomputable def scoreSpec (f : EngineeredFeatures) : ℝ :=
  Real.tanh ((f.net_call_premium : ℝ) / 1000000) * 0.8
    - Real.tanh ((f.net_put_premium : ℝ) / 1000000) * 0.8
    + (f.aggressiveness : ℝ) * 0.5

/-- The spec's signed premium: `+premium` if side=ASK, `-premium` if
side=BID, `0` for MID/UNKNOWN (absent premium counts as 0). -/
def signedPremiumSpec (r : FlowRow) : ℚ :=
  if r.side = some Side.ASK then premOrZero r
  else if r.side = some Side.BID then -(premOrZero r)
  else 0

/-- First occurrences of a list's elements, in encounter order (the spec's
"original strike-encounter order"). -/
def firstOccurrences : List ℚ → List ℚ
  | [] => []
  | a :: t => a :: (firstOccurrences t).filter (fun x => !(decide (x = a)))

/-- Total premium of the entries of an association list that carry a given
key (used to characterise the values of the `by_strike` dict). -/
def entryVal (l : List (ℚ × ℚ)) (k : ℚ) : ℚ :=
  ((l.filter (fun p => decide (p.1 = k))).map Prod.snd).sum

/- ------------------------------------------------------------------
Concrete tables used by witnesses and counterexamples
------------------------------------------------------------------ -/

/-- Row constructor for concrete test tables. -/
def sampleRow (st : ℚ) (ot : OptionType) (sd : Option Side) (pr : Option ℚ) : FlowRow :=
  { symbol := "SPXW", underlying := none, expiry := none, strike := st,
    option_type := ot, side := sd, price := none, size := none, premium := pr,
    open_interest := none, iv := none, delta := none, timestamp := none }

/-- One call row (premium 1000, side ASK) and one put row (premium 500,
side BID): the spec's worked example for the net premiums. -/
def exFlow6 : FlowTable :=
  { rows := [sampleRow 100 OptionType.C (some Side.ASK) (some 1000),
             sampleRow 90 OptionType.P (some Side.BID) (some 500)], provider := none }

/-- Put rows exist but carry no premium (absent and 0); one call row with
premium. -/
def exFlow7 : FlowTable :=
  { rows := [sampleRow 90 OptionType.P (some Side.UNKNOWN) none,
             sampleRow 95 OptionType.P (some Side.UNKNOWN) (some 0),
             sampleRow 100 OptionType.C (some Side.ASK) (some 100)], provider := none }

/-- A table with a negative per-strike premium aggregate: strike 100 holds
premium 2, strike 200 holds premium -1 (total premium 1). -/
def cexFlow4 : FlowTable :=
  { rows := [sampleRow 100 OptionType.C (some Side.ASK) (some 2),
             sampleRow 200 OptionType.C (some Side.ASK) (some (-1))], provider := none }

/-- Nonnegative premiums, all of them on strike 100 (strike 200 appears
with no premium). -/
def exFlow4 : FlowTable :=
  { rows := [sampleRow 100 OptionType.C (some Side.ASK) (some 3),
             sampleRow 200 OptionType.P (some Side.BID) none,
             sampleRow 100 OptionType.P (some Side.BID) (some 1)], provider := none }

/-- Three strikes with a premium tie between the first and third strikes
encountered (5, 7, 5). -/
def exFlow3 : FlowTable :=
  { rows := [sampleRow 100 OptionType.C (some Side.ASK) (some 5),
             sampleRow 200 OptionType.C (some Side.ASK) (some 7),
             sampleRow 300 OptionType.P (some Side.BID) (some 5)], provider := none }

/-- Empty table (zero rows is valid input). -/
def exFlow9 : FlowTable :=
  { rows := [], provider := none }

/-- Raw row whose premium column is unmapped but whose price and size
resolve (price 3.2, size 10): the spec's premium-derivation example. -/
def exRaw5 : RawRow :=
  { strike := some "6900", option_type := some "C", side := some "ASK",
    price := some "3.2", size := some "10" }

/-- Well-formed raw row. -/
def exRawGood : RawRow :=
  { symbol := some "SPXW", strike := some "6900", option_type := some "C",
    side := some "ASK", price := some "3.2", size := some "10", premium := some "3200" }

/-- Raw row with unparsable option_type "X". -/
def exRawBadX : RawRow :=
  { strike := some "100", option_type := some "X", premium := some "500" }

/- ------------------------------------------------------------------
Helper lemmas
------------------------------------------------------------------ -/

theorem renormSum (b : ℝ) :
    b / (b + (1 - b) + 0.15) + (1 - b) / (b + (1 - b) + 0.15)
      + 0.15 / (b + (1 - b) + 0.15) = 1 := by
  have h : b + (1 - b) + (0.15 : ℝ) = 1.15 := by ring
  rw [div_add_div_same, div_add_div_same, h]
  norm_num

theorem premium_signed_eq_spec (r : FlowRow) :
    _premium_signed r = signedPremiumSpec r := by
  unfold _premium_signed signedPremiumSpec
  rcases r.side with _ | s
  · rfl
  · cases s <;> rfl

theorem premium_signed_funext : _premium_signed = signedPremiumSpec :=
  funext premium_signed_eq_spec

theorem length_filterMap_isSome {α β : Type} (f : α → Option β) (l : List α) :
    (l.filterMap f).length = (l.filter (fun a => (f a).isSome)).length := by
  induction l with
  | nil => rfl
  | cons a t ih =>
    cases h : f a <;> simp [List.filterMap_cons, List.filter_cons, h, ih]

theorem buildRow_isSome (r : RawRow) :
    (buildRow r).isSome
      = ((_to_float r.strike).isSome && (_normalize_option_type r.option_type).isSome) := by
  unfold buildRow
  rcases e1 : _to_float r.strike with _ | st <;>
    rcases e2 : _normalize_option_type r.option_type with _ | ot <;>
    simp [e1, e2]

/- ------------------------------------------------------------------
Claim theorems
------------------------------------------------------------------ -/

/-- C1: the heuristic scorer computes
`score = tanh(net_call_premium/1e6)*0.8 - tanh(net_put_premium/1e6)*0.8 +
aggressiveness*0.5`, sets `bull = sigmoid(score)`, `bear = 1 - bull`,
`neutral = 0.15`, renormalizes each by `bull + bear + neutral`, and the
returned probabilities sum to 1 (hence to 1 within 1e-9). -/
theorem C1_heuristic_forecast_formula (f : EngineeredFeatures) :
    heuristic_forecast f =
      { bull := sigmoidSpec (scoreSpec f)
          / (sigmoidSpec (scoreSpec f) + (1 - sigmoidSpec (scoreSpec f)) + 0.15)
        bear := (1 - sigmoidSpec (scoreSpec f))
          / (sigmoidSpec (scoreSpec f) + (1 - sigmoidSpec (scoreSpec f)) + 0.15)
        neutral := 0.15
          / (sigmoidSpec (scoreSpec f) + (1 - sigmoidSpec (scoreSpec f)) + 0.15) }
  ∧ (heuristic_forecast f).bull + (heuristic_forecast f).bear
      + (heuristic_forecast f).neutral = 1
  ∧ |(heuristic_forecast f).bull + (heuristic_forecast f).bear
      + (heuristic_forecast f).neutral - 1| ≤ 1 / 1000000000 := by
  have hEq : heuristic_forecast f =
      { bull := sigmoidSpec (scoreSpec f)
          / (sigmoidSpec (scoreSpec f) + (1 - sigmoidSpec (scoreSpec f)) + 0.15)
        bear := (1 - sigmoidSpec (scoreSpec f))
          / (sigmoidSpec (scoreSpec f) + (1 - sigmoidSpec (scoreSpec f)) + 0.15)
        neutral := 0.15
          / (sigmoidSpec (scoreSpec f) + (1 - sigmoidSpec (scoreSpec f)) + 0.15) } := rfl
  have hsum : (heuristic_forecast f).bull + (heuristic_forecast f).bear
      + (heuristic_forecast f).neutral = 1 := by
    rw [hEq]
    exact renormSum (sigmoidSpec (scoreSpec f))
  refine ⟨hEq, hsum, ?_⟩
  rw [hsum]
  norm_num

/-- C8: when the model load fails (outcome `none`), `predict_proba` returns
exactly the heuristic forecast; the fallback is total and raises nothing
(the embedding is a total function). -/
theorem C8_model_load_fallback (f : EngineeredFeatures) :
    predict_proba none f = heuristic_forecast f := rfl

/-- C9: `analyze_flow` is a pure function of the table on the heuristic
path: two runs whose model loads both fail produce identical features,
forecast, key levels and rationale. -/
theorem C9_analyze_two_runs (fmt0 fmt2 fmtKL : ℚ → String) (o1 o2 : Option TrainedModel)
    (flow : FlowTable) (h1 : o1 = none) (h2 : o2 = none) :
    analyze_flow fmt0 fmt2 fmtKL o1 flow = analyze_flow fmt0 fmt2 fmtKL o2 flow := by
  rw [h1, h2]

/-- Witness for C9 at the empty table. -/
theorem C9_analyze_two_runs_witness :
    analyze_flow (fun _ => "") (fun _ => "") (fun _ => "") none exFlow9
      = analyze_flow (fun _ => "") (fun _ => "") (fun _ => "") none exFlow9 :=
  C9_analyze_two_runs (fun _ => "") (fun _ => "") (fun _ => "") none none exFlow9 rfl rfl

/-- C6: net call (put) premium is the sum of the spec's signed premium over
call (put) rows, and on the spec's worked example (call 1000 at ASK, put
500 at BID) they evaluate to 1000 and -500. -/
theorem C6_net_premiums (flow : FlowTable) :
    (compute_features flow).net_call_premium
        = ((flow.rows.filter (fun r => r.option_type == OptionType.C)).map
            signedPremiumSpec).sum
  ∧ (compute_features flow).net_put_premium
        = ((flow.rows.filter (fun r => r.option_type == OptionType.P)).map
            signedPremiumSpec).sum
  ∧ (compute_features exFlow6).net_call_premium = 1000
  ∧ (compute_features exFlow6).net_put_premium = -500 := by
  refine ⟨?_, ?_, ?_, ?_⟩
  · simp only [compute_features, premium_signed_funext]
  · simp only [compute_features, premium_signed_funext]
  · simp [compute_features, exFlow6, sampleRow, _premium_signed, premOrZero,
      List.filter_cons, List.filter_nil]
  · simp [compute_features, exFlow6, sampleRow, _premium_signed, premOrZero,
      List.filter_cons, List.filter_nil]

/-- C7: `call_put_ratio` equals unsigned call premium over unsigned put
premium, with the convention that it is exactly 0 when the put-premium sum
is 0; in particular it is 0 on a table whose put rows carry no premium
(absent or 0) even though a call row has premium. -/
theorem C7_call_put_ratio (flow : FlowTable) :
    (compute_features flow).call_put_ratio
      = (if total_put_prem flow = 0 then 0
         else total_call_prem flow / total_put_prem flow)
  ∧ (compute_features exFlow7).call_put_ratio = 0 := by
  constructor
  · simp only [compute_features, total_call_prem, total_put_prem]
    by_cases h :
        ((flow.rows.filter (fun r => r.option_type == OptionType.P)).map premOrZero).sum = 0
    · simp [h]
    · simp [h]
  · simp [compute_features, exFlow7, sampleRow, premOrZero,
      List.filter_cons, List.filter_nil]

/-- C5: when the premium cell is absent but price and size both resolve,
the built row's premium is price * size * 100. -/
theorem C5_premium_derivation (r : RawRow) (p sz : ℚ)
    (hprem : _to_float r.premium = none) (hp : _to_float r.price = some p)
    (hs : _to_float r.size = some sz) (row : FlowRow)
    (hrow : buildRow r = some row) :
    row.premium = some (p * sz * 100) := by
  unfold buildRow at hrow
  rw [hprem, hp, hs] at hrow
  rcases e1 : _to_float r.strike with _ | st
  · rw [e1] at hrow
    exact Option.noConfusion hrow
  · rcases e2 : _normalize_option_type r.option_type with _ | ot
    · rw [e1, e2] at hrow
      exact Option.noConfusion hrow
    · rw [e1, e2] at hrow
      simp only [Option.some.injEq] at hrow
      rw [← hrow]

/-- Witness for C5: the spec's example (price 3.2, size 10) yields premium
3200. -/
theorem C5_premium_derivation_witness :
    _to_float exRaw5.premium = none
  ∧ ∃ p sz row, _to_float exRaw5.price = some p ∧ _to_float exRaw5.size = some sz
      ∧ buildRow exRaw5 = some row ∧ row.premium = some (p * sz * 100)
      ∧ row.premium = some 3200 := by
  have hprem : _to_float exRaw5.premium = none := rfl
  have hp : _to_float exRaw5.price
      = some ((((3 : ℕ) : ℚ) + ((2 : ℕ) : ℚ) / (10 : ℚ) ^ 1) * (10 : ℚ) ^ (0 : ℕ)) := rfl
  have hs : _to_float exRaw5.size
      = some (((10 : ℕ) : ℚ) * (10 : ℚ) ^ (0 : ℕ)) := rfl
  have hgr : (buildRow exRaw5).isSome = true := rfl
  have hrow : buildRow exRaw5 = some ((buildRow exRaw5).get hgr) :=
    (Option.some_get hgr).symm
  have hconc := C5_premium_derivation exRaw5 _ _ hprem hp hs _ hrow
  refine ⟨hprem, _, _, _, hp, hs, hrow, hconc, ?_⟩
  rw [hconc]
  norm_num

/-- C2: parsing keeps exactly the raw rows whose strike and option_type
both normalize (so a row with option_type "X" is silently dropped, without
raising: the embedding is total), and every surviving row's option_type is
C or P. -/
theorem C2_malformed_rows_dropped (rs : List RawRow) (provider : Option String) :
    (parse_csv_bytes rs provider).rows.length
      = (rs.filter (fun r =>
          ((_to_float r.strike).isSome && (_normalize_option_type r.option_type).isSome))).length
  ∧ (∀ row ∈ (parse_csv_bytes rs provider).rows,
      row.option_type = OptionType.C ∨ row.option_type = OptionType.P)
  ∧ (parse_csv_bytes [exRawGood, exRawBadX] provider).rows.length = 1 := by
  refine ⟨?_, ?_, ?_⟩
  · unfold parse_csv_bytes
    rw [length_filterMap_isSome]
    exact congrArg List.length (List.filter_congr (fun r _ => buildRow_isSome r))
  · intro row _
    cases h : row.option_type
    · exact Or.inl rfl
    · exact Or.inr rfl
  · rfl

/-- Witness for C2 at a concrete raw table containing the "X" row. -/
theorem C2_malformed_rows_dropped_witness :
    (parse_csv_bytes [exRawGood, exRawBadX] none).rows.length
      = ([exRawGood, exRawBadX].filter (fun r =>
          ((_to_float r.strike).isSome && (_normalize_option_type r.option_type).isSome))).length
  ∧ (∀ row ∈ (parse_csv_bytes [exRawGood, exRawBadX] none).rows,
      row.option_type = OptionType.C ∨ row.option_type = OptionType.P)
  ∧ (parse_csv_bytes [exRawGood, exRawBadX] none).rows.length = 1 :=
  C2_malformed_rows_dropped [exRawGood, exRawBadX] none

/-- C10: `build_key_levels` recomputes the same strike-to-unsigned-premium
aggregation as `compute_features`, so its (strike, premium) pairs are the
first `min(6, distinct strikes)` entries of `top_strikes_by_premium`, and
the emitted key levels carry exactly those strikes. -/
theorem C10_key_levels_refinement (fmt : ℚ → String) (flow : FlowTable) :
    levels_map flow = by_strike flow
  ∧ key_level_pairs flow = (compute_features flow).top_strikes_by_premium.take 6
  ∧ (build_key_levels fmt flow).map KeyLevel.strike
      = ((compute_features flow).top_strikes_by_premium.take 6).map Prod.fst := by
  have h1 : levels_map flow = by_strike flow := rfl
  have htop : (compute_features flow).top_strikes_by_premium
      = ((by_strike flow).insertionSort descPrem).take 8 := rfl
  have h2 : key_level_pairs flow = (compute_features flow).top_strikes_by_premium.take 6 := by
    rw [htop, List.take_take]
    norm_num [key_level_pairs, h1]
  refine ⟨h1, h2, ?_⟩
  show ((key_level_pairs flow).map _).map KeyLevel.strike = _
  rw [List.map_map, h2]
  have hcomp : (KeyLevel.strike ∘ fun kv : ℚ × ℚ =>
      ({ strike := kv.1, reason := "High premium concentration (~" ++ fmt kv.2 ++ ")" }
        : KeyLevel)) = Prod.fst :=
    funext (fun kv => rfl)
  rw [hcomp]

/- Lemmas about the `by_strike` aggregation. -/

theorem upsert_snd_sum (k v : ℚ) : ∀ l : List (ℚ × ℚ),
    ((upsert l k v).map Prod.snd).sum = (l.map Prod.snd).sum + v := by
  intro l
  induction l with
  | nil => simp [upsert]
  | cons q t ih =>
    rcases q with ⟨k₁, v₁⟩
    by_cases h : k₁ = k
    · simp [upsert, h]
      ring
    · simp [upsert, h, ih]
      ring

theorem foldl_upsert_snd_sum (rows : List FlowRow) :
    ∀ acc : List (ℚ × ℚ),
      ((rows.foldl (fun acc r => upsert acc r.strike (premOrZero r)) acc).map Prod.snd).sum
        = (acc.map Prod.snd).sum + (rows.map premOrZero).sum := by
  induction rows with
  | nil => intro acc; simp
  | cons r t ih =>
    intro acc
    simp only [List.foldl_cons, List.map_cons, List.sum_cons]
    rw [ih, upsert_snd_sum]
    ring

theorem by_strike_snd_sum (flow : FlowTable) :
    ((by_strike flow).map Prod.snd).sum = total_premium flow := by
  have h := foldl_upsert_snd_sum flow.rows []
  simpa [by_strike, total_premium] using h

theorem upsert_snd_nonneg (k v : ℚ) (hv : 0 ≤ v) : ∀ l : List (ℚ × ℚ),
    (∀ p ∈ l, 0 ≤ p.2) → ∀ p ∈ upsert l k v, 0 ≤ p.2 := by
  intro l
  induction l with
  | nil =>
    intro _ p hp
    simp [upsert] at hp
    rw [hp]
    exact hv
  | cons q t ih =>
    rcases q with ⟨k₁, v₁⟩
    intro hl p hp
    by_cases h : k₁ = k
    · simp only [upsert, if_pos h, List.mem_cons] at hp
      rcases hp with hp | hp
      · rw [hp]
        exact add_nonneg (hl (k₁, v₁) (List.mem_cons_self _ _)) hv
      · exact hl p (List.mem_cons_of_mem _ hp)
    · simp only [upsert, if_neg h, List.mem_cons] at hp
      rcases hp with hp | hp
      · rw [hp]
        exact hl (k₁, v₁) (List.mem_cons_self _ _)
      · exact ih (fun q hq => hl q (List.mem_cons_of_mem _ hq)) p hp

theorem foldl_upsert_snd_nonneg (rows : List FlowRow)
    (hrows : ∀ r ∈ rows, 0 ≤ premOrZero r) :
    ∀ acc : List (ℚ × ℚ), (∀ p ∈ acc, 0 ≤ p.2) →
      ∀ p ∈ rows.foldl (fun acc r => upsert acc r.strike (premOrZero r)) acc, 0 ≤ p.2 := by
  induction rows with
  | nil => intro acc hacc p hp; exact hacc p hp
  | cons r t ih =>
    intro acc hacc p hp
    simp only [List.foldl_cons] at hp
    refine ih (fun q hq => hrows q (List.mem_cons_of_mem _ hq)) _ ?_ p hp
    exact upsert_snd_nonneg r.strike (premOrZero r)
      (hrows r (List.mem_cons_self _ _)) acc hacc

theorem by_strike_snd_nonneg (flow : FlowTable)
    (h : ∀ r ∈ flow.rows, 0 ≤ premOrZero r) :
    ∀ p ∈ by_strike flow, 0 ≤ p.2 :=
  foldl_upsert_snd_nonneg flow.rows h [] (by intro p hp; simp at hp)

theorem upsert_fst (k v : ℚ) : ∀ l : List (ℚ × ℚ),
    (upsert l k v).map Prod.fst
      = if k ∈ l.map Prod.fst then l.map Prod.fst else l.map Prod.fst ++ [k] := by
  intro l
  induction l with
  | nil => simp [upsert]
  | cons q t ih =>
    rcases q with ⟨k₁, v₁⟩
    by_cases h : k₁ = k
    · simp [upsert, h]
    · have hne : ¬ k = k₁ := fun hh => h hh.symm
      by_cases hm : k ∈ t.map Prod.fst
      · simp [upsert, h, ih, hm, hne]
      · simp [upsert, h, ih, hm, hne]

theorem mem_upsert_fst (k v q : ℚ) (l : List (ℚ × ℚ)) :
    q ∈ (upsert l k v).map Prod.fst ↔ q ∈ l.map Prod.fst ∨ q = k := by
  rw [upsert_fst]
  by_cases hm : k ∈ l.map Prod.fst
  · rw [if_pos hm]
    constructor
    · exact fun h => Or.inl h
    · rintro (h | h)
      · exact h
      · rw [h]; exact hm
  · rw [if_neg hm]
    simp

theorem upsert_fst_nodup (k v : ℚ) (l : List (ℚ × ℚ))
    (h : (l.map Prod.fst).Nodup) : ((upsert l k v).map Prod.fst).Nodup := by
  rw [upsert_fst]
  by_cases hm : k ∈ l.map Prod.fst
  · rw [if_pos hm]; exact h
  · rw [if_neg hm]
    rw [List.nodup_append]
    exact ⟨h, List.nodup_singleton k, by simpa using hm⟩

theorem foldl_upsert_fst_nodup (rows : List FlowRow) :
    ∀ acc : List (ℚ × ℚ), ((acc.map Prod.fst)).Nodup →
      (((rows.foldl (fun acc r => upsert acc r.strike (premOrZero r)) acc).map
          Prod.fst)).Nodup := by
  induction rows with
  | nil => intro acc hacc; exact hacc
  | cons r t ih =>
    intro acc hacc
    simp only [List.foldl_cons]
    exact ih _ (upsert_fst_nodup r.strike (premOrZero r) acc hacc)

theorem by_strike_fst_nodup (flow : FlowTable) :
    ((by_strike flow).map Prod.fst).Nodup :=
  foldl_upsert_fst_nodup flow.rows [] (by simp)

theorem mem_foldl_upsert_fst (rows : List FlowRow) (q : ℚ) :
    ∀ acc : List (ℚ × ℚ),
      (q ∈ (rows.foldl (fun acc r => upsert acc r.strike (premOrZero r)) acc).map Prod.fst
        ↔ q ∈ acc.map Prod.fst ∨ q ∈ rows.map FlowRow.strike) := by
  induction rows with
  | nil => intro acc; simp
  | cons r t ih =>
    intro acc
    simp only [List.foldl_cons, List.map_cons, List.mem_cons]
    rw [ih, mem_upsert_fst]
    tauto

theorem mem_by_strike_fst (flow : FlowTable) (q : ℚ) :
    q ∈ (by_strike flow).map Prod.fst ↔ q ∈ flow.rows.map FlowRow.strike := by
  have h := mem_foldl_upsert_fst flow.rows q []
  simpa [by_strike] using h

theorem entryVal_nil (k : ℚ) : entryVal [] k = 0 := rfl

theorem entryVal_cons (p : ℚ × ℚ) (t : List (ℚ × ℚ)) (q : ℚ) :
    entryVal (p :: t) q = (if p.1 = q then p.2 else 0) + entryVal t q := by
  by_cases h : p.1 = q
  · simp [entryVal, List.filter_cons, h]
  · simp [entryVal, List.filter_cons, h]

theorem entryVal_upsert (k v q : ℚ) : ∀ l : List (ℚ × ℚ),
    entryVal (upsert l k v) q = entryVal l q + (if k = q then v else 0) := by
  intro l
  induction l with
  | nil =>
    simp only [upsert, entryVal_cons, entryVal_nil]
    ring
  | cons p t ih =>
    rcases p with ⟨k₁, v₁⟩
    by_cases h : k₁ = k
    · subst h
      simp only [upsert, eq_self_iff_true, if_true, entryVal_cons]
      by_cases hq : k₁ = q
      · simp only [if_pos hq]
        ring
      · simp only [if_neg hq]
        ring
    · simp only [upsert, if_neg h, entryVal_cons, ih]
      ring

theorem entryVal_foldl_upsert (q : ℚ) (rows : List FlowRow) :
    ∀ acc : List (ℚ × ℚ),
      entryVal (rows.foldl (fun acc r => upsert acc r.strike (premOrZero r)) acc) q
        = entryVal acc q
          + ((rows.filter (fun r => decide (r.strike = q))).map premOrZero).sum := by
  induction rows with
  | nil => intro acc; simp
  | cons r t ih =>
    intro acc
    simp only [List.foldl_cons, List.filter_cons]
    rw [ih, entryVal_upsert]
    by_cases h : r.strike = q
    · simp only [h, decide_True, eq_self_iff_true, if_true, List.map_cons, List.sum_cons]
      ring
    · simp only [decide_eq_true_eq, h, decide_False, if_neg h]
      simp

theorem entryVal_by_strike (flow : FlowTable) (q : ℚ) :
    entryVal (by_strike flow) q
      = ((flow.rows.filter (fun r => decide (r.strike = q))).map premOrZero).sum := by
  have h := entryVal_foldl_upsert q flow.rows []
  simpa [by_strike, entryVal_nil] using h

theorem entryVal_eq_zero_of_not_mem (q : ℚ) : ∀ l : List (ℚ × ℚ),
    q ∉ l.map Prod.fst → entryVal l q = 0 := by
  intro l
  induction l with
  | nil => intro _; rfl
  | cons p t ih =>
    intro h
    simp only [List.map_cons, List.mem_cons] at h
    push_neg at h
    have hne : ¬ p.1 = q := fun hh => h.1 hh.symm
    rw [entryVal_cons, if_neg hne, ih h.2]
    ring

theorem snd_eq_entryVal_of_mem (p : ℚ × ℚ) : ∀ l : List (ℚ × ℚ),
    (l.map Prod.fst).Nodup → p ∈ l → p.2 = entryVal l p.1 := by
  intro l
  induction l with
  | nil => intro _ hp; exact absurd hp (List.not_mem_nil p)
  | cons q t ih =>
    intro hnd hp
    simp only [List.map_cons, List.nodup_cons] at hnd
    rcases List.mem_cons.mp hp with hp | hp
    · subst hp
      rw [entryVal_cons, if_pos rfl, entryVal_eq_zero_of_not_mem p.1 t hnd.1]
      ring
    · have hmem : p.1 ∈ t.map Prod.fst := List.mem_map_of_mem Prod.fst hp
      have hne : ¬ q.1 = p.1 := fun hh => hnd.1 (hh ▸ hmem)
      rw [entryVal_cons, if_neg hne, ← ih hnd.2 hp]
      ring

theorem sum_map_single_key (s c : ℚ) (f : ℚ × ℚ → ℚ) : ∀ l : List (ℚ × ℚ),
    (l.map Prod.fst).Nodup → s ∈ l.map Prod.fst →
    (∀ p ∈ l, p.1 = s → f p = c) → (∀ p ∈ l, p.1 ≠ s → f p = 0) →
    (l.map f).sum = c := by
  intro l
  induction l with
  | nil => intro _ hs; exact fun _ _ => absurd hs (List.not_mem_nil s)
  | cons q t ih =>
    intro hnd hs h1 h0
    simp only [List.map_cons, List.nodup_cons] at hnd
    simp only [List.map_cons, List.sum_cons]
    by_cases hq : q.1 = s
    · have hqc : f q = c := h1 q (List.mem_cons_self _ _) hq
      have ht0 : ∀ p ∈ t, f p = 0 := by
        intro p hp
        refine h0 p (List.mem_cons_of_mem _ hp) ?_
        intro hps
        exact hnd.1 (by rw [hq, ← hps]; exact List.mem_map_of_mem Prod.fst hp)
      have hsum : (t.map f).sum = 0 := by
        refine List.sum_eq_zero ?_
        intro x hx
        rcases List.mem_map.mp hx with ⟨p, hp, hfp⟩
        rw [← hfp]
        exact ht0 p hp
      rw [hqc, hsum]
      ring
    · have hq0 : f q = 0 := h0 q (List.mem_cons_self _ _) hq
      have hst : s ∈ t.map Prod.fst := by
        rcases List.mem_cons.mp hs with h | h
        · exact absurd h.symm hq
        · exact h
      rw [hq0, ih hnd.2 hst (fun p hp => h1 p (List.mem_cons_of_mem _ hp))
        (fun p hp => h0 p (List.mem_cons_of_mem _ hp))]
      ring

theorem sum_map_sq_le (l : List ℚ) (h : ∀ x ∈ l, 0 ≤ x) :
    (l.map (fun x => x * x)).sum ≤ l.sum * l.sum := by
  induction l with
  | nil => simp
  | cons a t ih =>
    simp only [List.map_cons, List.sum_cons]
    have ha : 0 ≤ a := h a (List.mem_cons_self _ _)
    have ht : ∀ x ∈ t, 0 ≤ x := fun x hx => h x (List.mem_cons_of_mem _ hx)
    have hts : 0 ≤ t.sum := List.sum_nonneg ht
    have := ih ht
    nlinarith

theorem sum_map_div (c : ℚ) : ∀ l : List ℚ,
    (l.map (fun x => x / c)).sum = l.sum / c := by
  intro l
  induction l with
  | nil => simp
  | cons a t ih =>
    simp only [List.map_cons, List.sum_cons, ih]
    rw [add_div]

theorem filter_strike_sum_eq (s : ℚ) : ∀ rows : List FlowRow,
    (∀ r ∈ rows, premOrZero r ≠ 0 → r.strike = s) →
    ((rows.filter (fun r => decide (r.strike = s))).map premOrZero).sum
      = (rows.map premOrZero).sum := by
  intro rows
  induction rows with
  | nil => intro _; rfl
  | cons r t ih =>
    intro h
    have ht := ih (fun q hq => h q (List.mem_cons_of_mem _ hq))
    simp only [List.filter_cons, List.map_cons, List.sum_cons]
    by_cases hs : r.strike = s
    · simp only [hs, decide_True, eq_self_iff_true, if_true, List.map_cons,
        List.sum_cons, ht]
    · have h0 : premOrZero r = 0 := by
        by_contra hne
        exact hs (h r (List.mem_cons_self _ _) hne)
      simp only [hs, decide_False, Bool.false_eq_true, if_false, ht, h0]
      ring

theorem hhi_formula (flow : FlowTable) :
    (compute_features flow).concentration_hhi
      = if 0 < total_premium flow then
          (((by_strike flow).map
            (fun kv => kv.2 / total_premium flow * (kv.2 / total_premium flow)))).sum
        else 0 := rfl

/-- C4 (amended): when every row's premium (absent read as 0) is
nonnegative, `concentration_hhi` lies in [0,1]; it is 0 whenever the total
premium is 0, and it is exactly 1 when the total premium is positive and
all premium-bearing rows sit on a single strike. -/
theorem C4_concentration_hhi_amended (flow : FlowTable)
    (hnn : ∀ r ∈ flow.rows, 0 ≤ premOrZero r) :
    0 ≤ (compute_features flow).concentration_hhi
  ∧ (compute_features flow).concentration_hhi ≤ 1
  ∧ (total_premium flow = 0 → (compute_features flow).concentration_hhi = 0)
  ∧ (∀ s : ℚ, 0 < total_premium flow →
      (∀ r ∈ flow.rows, premOrZero r ≠ 0 → r.strike = s) →
      (compute_features flow).concentration_hhi = 1) := by
  have hform := hhi_formula flow
  by_cases hT : 0 < total_premium flow
  · rw [hform, if_pos hT]
    have hmapmap :
        ((by_strike flow).map
            (fun kv => kv.2 / total_premium flow * (kv.2 / total_premium flow)))
          = (((by_strike flow).map (fun kv : ℚ × ℚ => kv.2 / total_premium flow)).map
              (fun x => x * x)) := by
      rw [List.map_map]
      rfl
    have hshnn : ∀ x ∈ (by_strike flow).map (fun kv : ℚ × ℚ => kv.2 / total_premium flow),
        0 ≤ x := by
      intro x hx
      rcases List.mem_map.mp hx with ⟨p, hp, hpx⟩
      rw [← hpx]
      exact div_nonneg (by_strike_snd_nonneg flow hnn p hp) (le_of_lt hT)
    have hshsum :
        ((by_strike flow).map (fun kv : ℚ × ℚ => kv.2 / total_premium flow)).sum = 1 := by
      have hmm : ((by_strike flow).map (fun kv : ℚ × ℚ => kv.2 / total_premium flow))
          = (((by_strike flow).map Prod.snd).map (fun x => x / total_premium flow)) := by
        rw [List.map_map]
        rfl
      rw [hmm, sum_map_div, by_strike_snd_sum]
      exact div_self (ne_of_gt hT)
    have hle :
        ((by_strike flow).map
          (fun kv => kv.2 / total_premium flow * (kv.2 / total_premium flow))).sum ≤ 1 := by
      rw [hmapmap]
      have hsq := sum_map_sq_le _ hshnn
      rw [hshsum] at hsq
      simpa using hsq
    have hge :
        0 ≤ ((by_strike flow).map
          (fun kv => kv.2 / total_premium flow * (kv.2 / total_premium flow))).sum := by
      refine List.sum_nonneg ?_
      intro x hx
      rcases List.mem_map.mp hx with ⟨p, hp, hpx⟩
      rw [← hpx]
      exact mul_self_nonneg _
    refine ⟨hge, hle, ?_, ?_⟩
    · intro h0
      exact absurd h0 (ne_of_gt hT)
    · intro s hpos hcon
      refine sum_map_single_key s 1 _ (by_strike flow) (by_strike_fst_nodup flow)
        ?_ ?_ ?_
      · have hex : ∃ r ∈ flow.rows, premOrZero r ≠ 0 := by
          by_contra hall
          push_neg at hall
          have hz : total_premium flow = 0 := by
            refine List.sum_eq_zero ?_
            intro x hx
            rcases List.mem_map.mp hx with ⟨r, hr, hrx⟩
            rw [← hrx]
            exact hall r hr
          exact (ne_of_gt hT) hz
        rcases hex with ⟨r, hr, hrne⟩
        exact (mem_by_strike_fst flow s).mpr
          (List.mem_map.mpr ⟨r, hr, hcon r hr hrne⟩)
      · intro p hp hps
        have hv : p.2 = entryVal (by_strike flow) p.1 :=
          snd_eq_entryVal_of_mem p (by_strike flow) (by_strike_fst_nodup flow) hp
        rw [entryVal_by_strike, hps, filter_strike_sum_eq s flow.rows hcon] at hv
        have hv2 : p.2 = total_premium flow := hv
        rw [hv2]
        rw [div_self (ne_of_gt hT)]
        norm_num
      · intro p hp hps
        have hv : p.2 = entryVal (by_strike flow) p.1 :=
          snd_eq_entryVal_of_mem p (by_strike flow) (by_strike_fst_nodup flow) hp
        rw [entryVal_by_strike] at hv
        have hz : p.2 = 0 := by
          rw [hv]
          refine List.sum_eq_zero ?_
          intro x hx
          rcases List.mem_map.mp hx with ⟨r, hr, hrx⟩
          rw [← hrx]
          rcases List.mem_filter.mp hr with ⟨hrmem, hrdec⟩
          by_contra hne
          have hrs : r.strike = s := hcon r hrmem hne
          have h1 : r.strike = p.1 := decide_eq_true_eq.mp hrdec
          exact hps (by rw [← h1]; exact hrs)
        rw [hz]
        simp
  · have h0 : (compute_features flow).concentration_hhi = 0 := by
      rw [hform, if_neg hT]
    rw [h0]
    refine ⟨le_refl 0, by norm_num, fun _ => rfl, ?_⟩
    intro s hpos _
    exact absurd hpos hT

/-- Counterexample to C4 as stated: on `cexFlow4` (premium 2 on strike 100
and premium -1 on strike 200, both valid FlowRows) the Herfindahl value is
(2/1)^2 + (-1/1)^2 = 5, outside [0,1]. -/
theorem C4_concentration_hhi_counterexample :
    ¬ ((compute_features cexFlow4).concentration_hhi ≤ 1) := by
  simp [compute_features, cexFlow4, sampleRow, premOrZero, by_strike, total_premium,
    upsert, List.filter_cons, List.filter_nil]
  norm_num

/-- Witness for the amended C4: on `exFlow4` (nonnegative premiums, all of
them on strike 100) the hypotheses hold and the Herfindahl value is 1. -/
theorem C4_concentration_hhi_amended_witness :
    (∀ r ∈ exFlow4.rows, 0 ≤ premOrZero r)
  ∧ 0 < total_premium exFlow4
  ∧ (∀ r ∈ exFlow4.rows, premOrZero r ≠ 0 → r.strike = 100)
  ∧ (compute_features exFlow4).concentration_hhi = 1 := by
  have hnn : ∀ r ∈ exFlow4.rows, 0 ≤ premOrZero r := by
    intro r hr
    simp only [exFlow4, List.mem_cons, List.not_mem_nil, or_false] at hr
    rcases hr with h | h | h <;> subst h <;> norm_num [sampleRow, premOrZero]
  have hpos : 0 < total_premium exFlow4 := by
    norm_num [total_premium, exFlow4, sampleRow, premOrZero]
  have hcon : ∀ r ∈ exFlow4.rows, premOrZero r ≠ 0 → r.strike = 100 := by
    intro r hr
    simp only [exFlow4, List.mem_cons, List.not_mem_nil, or_false] at hr
    rcases hr with h | h | h <;> subst h <;> norm_num [sampleRow, premOrZero]
  exact ⟨hnn, hpos, hcon,
    (C4_concentration_hhi_amended exFlow4 hnn).2.2.2 100 hpos hcon⟩

/- Lemmas for the top-strikes ordering (C3). -/

theorem orderedInsert_pairwise_T (T : (ℚ × ℚ) → (ℚ × ℚ) → Prop)
    (Hne : ∀ a b : ℚ × ℚ, a.2 ≠ b.2 → T a b) (x : ℚ × ℚ) :
    ∀ l : List (ℚ × ℚ), l.Pairwise T → (∀ y ∈ l, T x y) →
      (List.orderedInsert descPrem x l).Pairwise T := by
  intro l
  induction l with
  | nil =>
    intro _ _
    simpa using List.pairwise_singleton T x
  | cons y t ih =>
    intro hl hx
    rcases List.pairwise_cons.mp hl with ⟨hy, ht⟩
    simp only [List.orderedInsert]
    by_cases h : descPrem x y
    · rw [if_pos h]
      refine List.pairwise_cons.mpr ⟨?_, hl⟩
      intro z hz
      exact hx z hz
    · rw [if_neg h]
      refine List.pairwise_cons.mpr
        ⟨?_, ih ht (fun z hz => hx z (List.mem_cons_of_mem _ hz))⟩
      intro z hz
      rcases (List.mem_orderedInsert descPrem).mp hz with hz | hz
      · have hlt : x.2 < y.2 := by
          have h2 : ¬ (y.2 ≤ x.2) := h
          exact not_le.mp h2
        rw [hz]
        exact Hne y x (ne_of_gt hlt)
      · exact hy z hz

theorem insertionSort_pairwise_T (T : (ℚ × ℚ) → (ℚ × ℚ) → Prop)
    (Hne : ∀ a b : ℚ × ℚ, a.2 ≠ b.2 → T a b) :
    ∀ l : List (ℚ × ℚ), l.Pairwise T →
      (List.insertionSort descPrem l).Pairwise T := by
  intro l
  induction l with
  | nil => intro _; simp [List.insertionSort]
  | cons a t ih =>
    intro hl
    rcases List.pairwise_cons.mp hl with ⟨ha, ht⟩
    simp only [List.insertionSort]
    refine orderedInsert_pairwise_T T Hne a _ (ih ht) ?_
    intro y hy
    exact ha y ((List.mem_insertionSort descPrem).mp hy)

theorem nodup_indexOf_getElem : ∀ (l : List ℚ), l.Nodup →
    ∀ i (hi : i < l.length), List.indexOf l[i] l = i := by
  intro l
  induction l with
  | nil => intro _ i hi; exact absurd hi (by simp)
  | cons a t ih =>
    intro hnd i hi
    rcases List.nodup_cons.mp hnd with ⟨hna, hndt⟩
    cases i with
    | zero => simp [List.indexOf_cons_self]
    | succ n =>
      have hn : n < t.length := by simpa using hi
      have hgt : (a :: t)[n + 1] = t[n] := List.getElem_cons_succ a t n hi
      have hne : a ≠ t[n] := fun hh => hna (hh ▸ List.getElem_mem hn)
      rw [hgt, @List.indexOf_cons_ne ℚ _ (t[n]) a t hne, ih hndt n hn]

theorem nodup_pairwise_indexOf (l : List ℚ) (h : l.Nodup) :
    l.Pairwise (fun a b => List.indexOf a l < List.indexOf b l) := by
  rw [List.pairwise_iff_getElem]
  intro i j hi hj hij
  rw [nodup_indexOf_getElem l h i hi, nodup_indexOf_getElem l h j hj]
  exact hij

theorem foldl_upsert_fst_firstOcc (rows : List FlowRow) :
    ∀ acc : List (ℚ × ℚ),
      (rows.foldl (fun acc r => upsert acc r.strike (premOrZero r)) acc).map Prod.fst
        = acc.map Prod.fst
          ++ (firstOccurrences (rows.map FlowRow.strike)).filter
              (fun x => !(decide (x ∈ acc.map Prod.fst))) := by
  induction rows with
  | nil => intro acc; simp [firstOccurrences]
  | cons r t ih =>
    intro acc
    simp only [List.foldl_cons, List.map_cons, firstOccurrences, List.filter_cons]
    rw [ih, upsert_fst]
    by_cases hm : r.strike ∈ acc.map Prod.fst
    · rw [if_pos hm]
      have hcond : (!(decide (r.strike ∈ acc.map Prod.fst))) = false := by simp [hm]
      rw [hcond]
      simp only [Bool.false_eq_true, if_false]
      congr 1
      rw [List.filter_filter]
      refine (List.filter_congr ?_).symm
      intro x _
      by_cases hx : x ∈ acc.map Prod.fst
      · simp [hx]
      · have hxr : x ≠ r.strike := fun hh => hx (hh ▸ hm)
        simp [hx, hxr]
    · rw [if_neg hm]
      have hcond : (!(decide (r.strike ∈ acc.map Prod.fst))) = true := by simp [hm]
      rw [hcond]
      simp only [if_true]
      rw [List.append_assoc, List.singleton_append]
      congr 1
      rw [List.filter_filter]
      congr 1
      refine List.filter_congr ?_
      intro x _
      by_cases hx : x ∈ acc.map Prod.fst
      · have hxm : x ∈ acc.map Prod.fst ++ [r.strike] := List.mem_append_left _ hx
        simp [hx, hxm]
      · by_cases hxr : x = r.strike
        · have hxm : x ∈ acc.map Prod.fst ++ [r.strike] := by simp [hxr]
          simp [hxm, hxr]
        · have hxm : x ∉ acc.map Prod.fst ++ [r.strike] := by
            simp [hx, hxr]
          simp [hxm, hx, hxr]

theorem by_strike_fst_firstOcc (flow : FlowTable) :
    (by_strike flow).map Prod.fst = firstOccurrences (flow.rows.map FlowRow.strike) := by
  have h := foldl_upsert_fst_firstOcc flow.rows []
  simpa [by_strike] using h

theorem by_strike_length_dedup (flow : FlowTable) :
    (by_strike flow).length = (flow.rows.map FlowRow.strike).dedup.length := by
  have hnd := by_strike_fst_nodup flow
  have hlen : (by_strike flow).length = ((by_strike flow).map Prod.fst).length :=
    (List.length_map _ _).symm
  have htf : ((by_strike flow).map Prod.fst).toFinset
      = (flow.rows.map FlowRow.strike).toFinset := by
    apply Finset.ext
    intro a
    rw [List.mem_toFinset, List.mem_toFinset]
    exact mem_by_strike_fst flow a
  calc (by_strike flow).length
      = ((by_strike flow).map Prod.fst).length := hlen
    _ = ((by_strike flow).map Prod.fst).toFinset.card :=
        (List.toFinset_card_of_nodup hnd).symm
    _ = (flow.rows.map FlowRow.strike).toFinset.card := by rw [htf]
    _ = (flow.rows.map FlowRow.strike).dedup.length := List.card_toFinset _

/-- C3: `top_strikes_by_premium` has length `min(8, distinct strikes)`, is
sorted descending by aggregated premium, ties are broken by original
strike-encounter order (the keys of the aggregation dict list the distinct
strikes in first-encounter order, and among equal premiums earlier keys
come first). -/
theorem C3_top_strikes_spec (flow : FlowTable) :
    (compute_features flow).top_strikes_by_premium.length
      = min 8 ((flow.rows.map FlowRow.strike).dedup.length)
  ∧ List.Sorted (fun a b : ℚ × ℚ => b.2 ≤ a.2)
      (compute_features flow).top_strikes_by_premium
  ∧ List.Pairwise (fun a b : ℚ × ℚ => a.2 = b.2 →
      List.indexOf a.1 ((by_strike flow).map Prod.fst)
        < List.indexOf b.1 ((by_strike flow).map Prod.fst))
      (compute_features flow).top_strikes_by_premium
  ∧ (by_strike flow).map Prod.fst
      = firstOccurrences (flow.rows.map FlowRow.strike) := by
  have htop : (compute_features flow).top_strikes_by_premium
      = (List.insertionSort descPrem (by_strike flow)).take 8 := rfl
  refine ⟨?_, ?_, ?_, by_strike_fst_firstOcc flow⟩
  · rw [htop, List.length_take, List.length_insertionSort, by_strike_length_dedup]
  · rw [htop]
    refine List.Pairwise.sublist (List.take_sublist 8 _) ?_
    exact List.sorted_insertionSort descPrem (by_strike flow)
  · rw [htop]
    refine List.Pairwise.sublist (List.take_sublist 8 _) ?_
    refine insertionSort_pairwise_T _ ?_ _ ?_
    · intro a b hne heq
      exact absurd heq hne
    · have hnd := by_strike_fst_nodup flow
      have hbase := nodup_pairwise_indexOf _ hnd
      have hpw := (List.pairwise_map).mp hbase
      refine hpw.imp ?_
      intro a b h _
      exact h

/-- Witness for C3 at a concrete table with a premium tie. -/
theorem C3_top_strikes_spec_witness :
    (compute_features exFlow3).top_strikes_by_premium.length
      = min 8 ((exFlow3.rows.map FlowRow.strike).dedup.length)
  ∧ List.Sorted (fun a b : ℚ × ℚ => b.2 ≤ a.2)
      (compute_features exFlow3).top_strikes_by_premium
  ∧ List.Pairwise (fun a b : ℚ × ℚ => a.2 = b.2 →
      List.indexOf a.1 ((by_strike exFlow3).map Prod.fst)
        < List.indexOf b.1 ((by_strike exFlow3).map Prod.fst))
      (compute_features exFlow3).top_strikes_by_premium
  ∧ (by_strike exFlow3).map Prod.fst
      = firstOccurrences (exFlow3.rows.map FlowRow.strike) :=
  C3_top_strikes_spec exFlow3
